import Mathlib

/-!
Shallow embedding of the FAISS-backed vector store in
`backend/vanna_config.py` (class `FAISS_VectorStore`), together with a
model of the on-disk snapshot it maintains.  Embedding vectors (Python
lists of floats) are modelled as lists of integers — the claims concern
ordering, equality and alignment of vectors, none of which depends on
the coordinates being fractional; the external
embedding provider (`generate_embedding`, a network call) is modelled as
an abstract function `String → List ℤ` passed to each operation; the
random `uuid.uuid4()` id is passed as an argument.  Filesystem writes in
`_save` may fail, which is modelled by a boolean `saveOk` parameter; a
Python exception escaping a method is modelled by an `Option VErr`
component in the result.
-/

namespace Vanna

/-- A metadata record, i.e. one of the three dict shapes built by
`add_ddl`, `add_documentation` and `add_question_sql`
(keys `id`, `type`, and `content` or `question`/`sql`). -/
inductive MetaRec where
  | ddl (id content : String)
  | documentation (id content : String)
  | questionSql (id question sql : String)
deriving DecidableEq, Repr

/-- The FAISS flat L2 index: a fixed dimension `d` and the stored
vectors in insertion order. -/
structure FaissIndex where
  d : Nat
  vectors : List (List ℤ)
deriving DecidableEq, Repr

/-- `index.ntotal` — the number of stored vectors. -/
def FaissIndex.ntotal (ix : FaissIndex) : Nat :=
  ix.vectors.length

/-- `index.add(v)` — append one vector. -/
def FaissIndex.addVec (ix : FaissIndex) (v : List ℤ) : FaissIndex :=
  { ix with vectors := ix.vectors ++ [v] }

/-- `faiss.IndexFlatL2(dimension)` — a fresh empty index. -/
def IndexFlatL2 (dimension : Nat) : FaissIndex :=
  { d := dimension, vectors := [] }

/-- Squared Euclidean distance between two vectors (the L2 metric of
`IndexFlatL2`, without the final square root). -/
def sqDist (q v : List ℤ) : ℤ :=
  (List.zipWith (fun a b => (a - b) * (a - b)) q v).sum

/-- The ranking order on `(position, distance)` pairs: strictly smaller
distance first, ties broken by insertion position. -/
def rankLE (a b : Nat × ℤ) : Prop :=
  a.2 < b.2 ∨ (a.2 = b.2 ∧ a.1 ≤ b.1)

instance : DecidableRel rankLE := fun a b => by
  unfold rankLE; infer_instance

instance : IsTotal (Nat × ℤ) rankLE where
  total a b := by
    unfold rankLE
    rcases lt_trichotomy a.2 b.2 with h | h | h
    · exact Or.inl (Or.inl h)
    · rcases Nat.le_total a.1 b.1 with h1 | h1
      · exact Or.inl (Or.inr ⟨h, h1⟩)
      · exact Or.inr (Or.inr ⟨h.symm, h1⟩)
    · exact Or.inr (Or.inl h)

instance : IsTrans (Nat × ℤ) rankLE where
  trans a b c hab hbc := by
    unfold rankLE at *
    rcases hab with h1 | ⟨h1, h1n⟩
    · rcases hbc with h2 | ⟨h2, _⟩
      · exact Or.inl (h1.trans h2)
      · exact Or.inl (h2 ▸ h1)
    · rcases hbc with h2 | ⟨h2, h2n⟩
      · exact Or.inl (h1 ▸ h2)
      · exact Or.inr ⟨h1.trans h2, h1n.trans h2n⟩

/-- The list of `(position, squared distance to q)` pairs for the stored
vectors `vs`, positions starting at `i`. -/
def distancesFrom (q : List ℤ) : Nat → List (List ℤ) → List (Nat × ℤ)
  | _, [] => []
  | i, v :: vs => (i, sqDist q v) :: distancesFrom q (i + 1) vs

/-- Modelled from the spec: `index.search(q, k)` of `faiss.IndexFlatL2`
is implemented by the external FAISS library, whose source is not part
of this repository.  Following the specified contract, it is a
brute-force scan returning the `k` `(position, distance)` pairs of
smallest squared Euclidean distance, ordered by ascending distance with
ties broken by ascending insertion position. -/
def FaissIndex.search (ix : FaissIndex) (q : List ℤ) (k : Nat) : List (Nat × ℤ) :=
  (List.insertionSort rankLE (distancesFrom q 0 ix.vectors)).take k

/-- Errors a store operation can raise: the `ValueError` of a dimension
mismatch in `add_embeddings`, or a filesystem failure in `_save`. -/
inductive VErr where
  | dimensionMismatch
  | storageError
deriving DecidableEq, Repr

/-- The on-disk snapshot: `faiss.index`, `metadata.pkl` and
`dimension.txt`, each possibly absent. -/
structure Disk where
  indexFile : Option FaissIndex
  metadataFile : Option (List MetaRec)
  dimensionFile : Option Nat
deriving DecidableEq, Repr

/-- The in-memory state of `FAISS_VectorStore`: `self.dimension`,
`self.index` (None before the first add on a fresh store) and
`self.metadata`. -/
structure Store where
  dimension : Option Nat
  index : Option FaissIndex
  metadata : List MetaRec
deriving DecidableEq, Repr

/-- `self.index.ntotal`, an uninitialized index counting as zero. -/
def Store.ntotalOrZero (s : Store) : Nat :=
  match s.index with
  | none => 0
  | some ix => ix.ntotal

/-- `_init_index(dimension)`: set `self.dimension`, create a fresh
`IndexFlatL2`, and write `dimension.txt`. -/
def init_index (sd : Store × Disk) (dimension : Nat) : Store × Disk :=
  ({ sd.1 with dimension := some dimension, index := some (IndexFlatL2 dimension) },
   { sd.2 with dimensionFile := some dimension })

/-- `_save()`: write the index file and the metadata pickle.  `saveOk`
models whether the filesystem writes succeed; on failure the exception
propagates and the previous disk contents are kept. -/
def save (saveOk : Bool) (s : Store) (disk : Disk) : Disk × Option VErr :=
  if saveOk then
    ({ disk with indexFile := s.index, metadataFile := some s.metadata }, none)
  else
    (disk, some VErr.storageError)

/-- `add_embeddings(embeddings, metadata)`: auto-initialize the index on
the first embedding, raise `ValueError` on a dimension mismatch,
otherwise append to the index and the metadata list and call
`_save()`. -/
def add_embeddings (saveOk : Bool) (sd : Store × Disk) (emb : List ℤ) (md : MetaRec) :
    (Store × Disk) × Option VErr :=
  let sd1 := if sd.1.index = none then init_index sd emb.length else sd
  if some emb.length ≠ sd1.1.dimension then
    (sd1, some VErr.dimensionMismatch)
  else
    let s2 : Store :=
      { sd1.1 with
        index := sd1.1.index.map (fun ix => ix.addVec emb),
        metadata := sd1.1.metadata ++ [md] }
    let r := save saveOk s2 sd1.2
    ((s2, r.1), r.2)

/-- The load part of `__init__`: when both the index file and the
metadata file exist, load them and take the dimension from
`dimension.txt` when present, else from `index.d`; otherwise start with
no index and an empty metadata list, keeping the configured dimension. -/
def load_store (cfgDim : Option Nat) (disk : Disk) : Store :=
  match disk.indexFile, disk.metadataFile with
  | some ix, some md =>
      { dimension := some (match disk.dimensionFile with
          | some dd => dd
          | none => ix.d),
        index := some ix,
        metadata := md }
  | _, _ => { dimension := cfgDim, index := none, metadata := [] }

/-- The result loop of `get_similar_embeddings`: for each matched
position, append `metadata[idx]` when `idx < len(metadata)`. -/
def lookup_metadata (md : List MetaRec) : List Nat → List MetaRec
  | [] => []
  | i :: is =>
      if h : i < md.length then md.get ⟨i, h⟩ :: lookup_metadata md is
      else lookup_metadata md is

/-- `get_similar_embeddings(embedding, n)`: empty result when the index
is missing or empty; otherwise search for `min(n, ntotal)` neighbors
and look up each matched position in the metadata list. -/
def get_similar_embeddings (s : Store) (emb : List ℤ) (n : Nat) : List MetaRec :=
  match s.index with
  | none => []
  | some ix =>
      if ix.ntotal = 0 then []
      else lookup_metadata s.metadata ((ix.search emb (min n ix.ntotal)).map Prod.fst)

/-- `add_ddl(ddl)`: embed the text and add it with a
`type: ddl` record (`id` is the externally generated uuid). -/
def add_ddl (E : String → List ℤ) (saveOk : Bool) (sd : Store × Disk)
    (id ddl : String) : (Store × Disk) × Option VErr :=
  add_embeddings saveOk sd (E ddl) (MetaRec.ddl id ddl)

/-- `add_documentation(documentation)`. -/
def add_documentation (E : String → List ℤ) (saveOk : Bool) (sd : Store × Disk)
    (id text : String) : (Store × Disk) × Option VErr :=
  add_embeddings saveOk sd (E text) (MetaRec.documentation id text)

/-- `add_question_sql(question, sql)`: only the question text is
embedded; the SQL is carried as payload. -/
def add_question_sql (E : String → List ℤ) (saveOk : Bool) (sd : Store × Disk)
    (id question sql : String) : (Store × Disk) × Option VErr :=
  add_embeddings saveOk sd (E question) (MetaRec.questionSql id question sql)

/-- `get_related_ddl(question)`: embed the question, pull the top 10
neighbors, keep records with `type == ddl`, return their contents. -/
def get_related_ddl (E : String → List ℤ) (s : Store) (question : String) : List String :=
  (get_similar_embeddings s (E question) 10).filterMap fun r =>
    match r with
    | MetaRec.ddl _ c => some c
    | _ => none

/-- `get_related_documentation(question)`. -/
def get_related_documentation (E : String → List ℤ) (s : Store) (question : String) :
    List String :=
  (get_similar_embeddings s (E question) 10).filterMap fun r =>
    match r with
    | MetaRec.documentation _ c => some c
    | _ => none

/-- `get_similar_question_sql(question)`: returns the
`(question, sql)` payloads of matched `question_sql` records. -/
def get_similar_question_sql (E : String → List ℤ) (s : Store) (question : String) :
    List (String × String) :=
  (get_similar_embeddings s (E question) 10).filterMap fun r =>
    match r with
    | MetaRec.questionSql _ qq ss => some (qq, ss)
    | _ => none

/-- `get_training_data()`: the whole metadata list. -/
def get_training_data (s : Store) : List MetaRec :=
  s.metadata

/-- `remove_training_data(id)`: logs a warning and does nothing
(`pass`), returning normally. -/
def remove_training_data (sd : Store × Disk) (id : String) :
    (Store × Disk) × Option VErr :=
  (sd, none)

/-- One public operation of the store, with the uuid and the
success of the filesystem writes supplied externally. -/
inductive Op where
  | addDdl (saveOk : Bool) (id ddl : String)
  | addDocumentation (saveOk : Bool) (id text : String)
  | addQuestionSql (saveOk : Bool) (id question sql : String)
  | relatedDdl (question : String)
  | relatedDocumentation (question : String)
  | similarQuestionSql (question : String)
  | trainingData
  | removeTrainingData (id : String)

/-- The state transition of one public operation.  The four query
operations read the store without mutating it. -/
def step (E : String → List ℤ) (sd : Store × Disk) : Op → (Store × Disk) × Option VErr
  | Op.addDdl saveOk id d => add_ddl E saveOk sd id d
  | Op.addDocumentation saveOk id t => add_documentation E saveOk sd id t
  | Op.addQuestionSql saveOk id q sql => add_question_sql E saveOk sd id q sql
  | Op.relatedDdl _ => (sd, none)
  | Op.relatedDocumentation _ => (sd, none)
  | Op.similarQuestionSql _ => (sd, none)
  | Op.trainingData => (sd, none)
  | Op.removeTrainingData id => remove_training_data sd id

/-- Run a sequence of public operations. -/
def run (E : String → List ℤ) (sd : Store × Disk) : List Op → Store × Disk
  | [] => sd
  | op :: ops => run E (step E sd op).1 ops

/-- A directory with no snapshot files. -/
def emptyDisk : Disk :=
  { indexFile := none, metadataFile := none, dimensionFile := none }

/-! ### Helper lemmas -/

theorem inv_add_embeddings (saveOk : Bool) (sd : Store × Disk) (emb : List ℤ) (md : MetaRec)
    (h : sd.1.ntotalOrZero = sd.1.metadata.length) :
    (add_embeddings saveOk sd emb md).1.1.ntotalOrZero =
      (add_embeddings saveOk sd emb md).1.1.metadata.length := by
  rcases sd with ⟨s, disk⟩
  rcases hix : s.index with _ | ix
  · have hm : s.metadata = [] := by
      have h0 := h
      simp only [Store.ntotalOrZero, hix] at h0
      exact List.length_eq_zero.mp h0.symm
    simp [add_embeddings, hix, init_index, hm, Store.ntotalOrZero, IndexFlatL2,
      FaissIndex.addVec, FaissIndex.ntotal, save]
  · have h0 : ix.vectors.length = s.metadata.length := by
      simpa only [Store.ntotalOrZero, hix, FaissIndex.ntotal] using h
    by_cases hd : some emb.length ≠ s.dimension
    · simp [add_embeddings, hix, hd, Store.ntotalOrZero, FaissIndex.ntotal, h0]
    · simp [add_embeddings, hix, hd, Store.ntotalOrZero, FaissIndex.ntotal,
        FaissIndex.addVec, save, h0]

theorem inv_step (E : String → List ℤ) (sd : Store × Disk) (op : Op)
    (h : sd.1.ntotalOrZero = sd.1.metadata.length) :
    (step E sd op).1.1.ntotalOrZero = (step E sd op).1.1.metadata.length := by
  cases op <;>
    first
      | exact h
      | exact inv_add_embeddings _ _ _ _ h

/-! ### Claim theorems C1 through C5 -/

/-- C1: for every sequence of public operations starting from a state
where the vector count equals the ledger length (in particular the
fresh store), after each call the number of vectors held by the index
(an uninitialized index counting as zero) equals the number of records
in the metadata list.  Since every prefix of a sequence is itself a
sequence, this covers the state after each successful call. -/
theorem index_ledger_alignment (E : String → List ℤ) (sd : Store × Disk) (ops : List Op)
    (h : sd.1.ntotalOrZero = sd.1.metadata.length) :
    (run E sd ops).1.ntotalOrZero = (run E sd ops).1.metadata.length := by
  induction ops generalizing sd with
  | nil => exact h
  | cons op ops ih => exact ih _ (inv_step E sd op h)

theorem index_ledger_alignment_witness :
    ((load_store none emptyDisk, emptyDisk) : Store × Disk).1.ntotalOrZero =
        ((load_store none emptyDisk, emptyDisk) : Store × Disk).1.metadata.length ∧
      (run (fun _ => [(1 : ℤ)]) (load_store none emptyDisk, emptyDisk)
          [Op.addDdl true "id1" "CREATE TABLE t", Op.removeTrainingData "id1",
           Op.addDocumentation true "id2" "doc"]).1.ntotalOrZero =
        (run (fun _ => [(1 : ℤ)]) (load_store none emptyDisk, emptyDisk)
          [Op.addDdl true "id1" "CREATE TABLE t", Op.removeTrainingData "id1",
           Op.addDocumentation true "id2" "doc"]).1.metadata.length :=
  ⟨rfl, index_ledger_alignment (fun _ => [(1 : ℤ)]) (load_store none emptyDisk, emptyDisk)
    [Op.addDdl true "id1" "CREATE TABLE t", Op.removeTrainingData "id1",
     Op.addDocumentation true "id2" "doc"] rfl⟩

/-- A one-record store used to exhibit the silent no-op of
`remove_training_data`. -/
def exStoreC2 : Store :=
  { dimension := some 1,
    index := some { d := 1, vectors := [[0]] },
    metadata := [MetaRec.ddl "id1" "CREATE TABLE t"] }

/-- C2: `remove_training_data` accepts every call and returns success
(`None`, no exception) while leaving the store unchanged: it neither
removes the record nor raises `UnsupportedOperation`.  In particular,
on a store holding the record with id `id1`, the record is still
returned by `get_training_data` afterwards. -/
theorem remove_training_data_silent_noop :
    (∀ (sd : Store × Disk) (id : String), remove_training_data sd id = (sd, none)) ∧
      MetaRec.ddl "id1" "CREATE TABLE t" ∈
        get_training_data (remove_training_data (exStoreC2, emptyDisk) "id1").1.1 :=
  ⟨fun _ _ => rfl, by decide⟩

/-- C3: on a fresh store, an `add_ddl` whose `_save` fails raises
`StorageError` but leaves the appended vector and metadata record in
memory (one vector, one record) while nothing was persisted
(`metadata.pkl` still absent): the in-memory appends are not rolled
back, so memory and disk diverge. -/
theorem add_no_rollback_on_save_failure :
    (add_ddl (fun _ => [(1 : ℤ)]) false (load_store none emptyDisk, emptyDisk)
        "id1" "CREATE TABLE t").2 = some VErr.storageError ∧
      (add_ddl (fun _ => [(1 : ℤ)]) false (load_store none emptyDisk, emptyDisk)
        "id1" "CREATE TABLE t").1.1.metadata = [MetaRec.ddl "id1" "CREATE TABLE t"] ∧
      (add_ddl (fun _ => [(1 : ℤ)]) false (load_store none emptyDisk, emptyDisk)
        "id1" "CREATE TABLE t").1.1.ntotalOrZero = 1 ∧
      (add_ddl (fun _ => [(1 : ℤ)]) false (load_store none emptyDisk, emptyDisk)
        "id1" "CREATE TABLE t").1.2.metadataFile = none := by
  refine ⟨rfl, rfl, rfl, rfl⟩

/-- C4: the first successful add on a store without an index fixes the
dimension to the length of the embedding; every later add whose embedding
length differs from the locked-in dimension fails with the dimension
mismatch `ValueError` and returns the state completely unchanged. -/
theorem dimension_lock_in :
    (∀ (E : List ℤ) (sd : Store × Disk) (md : MetaRec), sd.1.index = none →
        (add_embeddings true sd E md).2 = none ∧
          (add_embeddings true sd E md).1.1.dimension = some E.length) ∧
      (∀ (saveOk : Bool) (sd : Store × Disk) (emb : List ℤ) (md : MetaRec) (D : Nat),
        sd.1.index ≠ none → sd.1.dimension = some D → emb.length ≠ D →
          add_embeddings saveOk sd emb md = (sd, some VErr.dimensionMismatch)) := by
  constructor
  · intro emb sd md hix
    simp [add_embeddings, hix, init_index, save]
  · intro saveOk sd emb md D hix hdim hne
    rcases hd : sd.1.index with _ | ix
    · exact absurd hd hix
    · simp [add_embeddings, hd, hdim, hne]

theorem dimension_lock_in_witness :
    ((load_store none emptyDisk, emptyDisk) : Store × Disk).1.index = none ∧
      (add_embeddings true (load_store none emptyDisk, emptyDisk)
          [(1 : ℤ), 2] (MetaRec.ddl "a" "x")).2 = none ∧
      (add_embeddings true (load_store none emptyDisk, emptyDisk)
          [(1 : ℤ), 2] (MetaRec.ddl "a" "x")).1.1.dimension = some 2 ∧
      add_embeddings true (exStoreC2, emptyDisk) [(1 : ℤ), 2] (MetaRec.ddl "b" "y")
        = ((exStoreC2, emptyDisk), some VErr.dimensionMismatch) := by
  refine ⟨rfl, ?_, ?_, ?_⟩
  · exact (dimension_lock_in.1 [(1 : ℤ), 2] (load_store none emptyDisk, emptyDisk)
      (MetaRec.ddl "a" "x") rfl).1
  · exact (dimension_lock_in.1 [(1 : ℤ), 2] (load_store none emptyDisk, emptyDisk)
      (MetaRec.ddl "a" "x") rfl).2
  · exact dimension_lock_in.2 true (exStoreC2, emptyDisk) [(1 : ℤ), 2]
      (MetaRec.ddl "b" "y") 1 (by decide) rfl (by decide)

/-- C5: with the vector index file present (holding one stored vector)
but the metadata ledger file absent, initialization silently yields the
empty store (no index, no records, dimension from config) instead of
failing with `StorageError`. -/
theorem load_partial_snapshot_yields_empty_store :
    load_store none
        { indexFile := some { d := 1, vectors := [[0]] },
          metadataFile := none,
          dimensionFile := some 1 }
      = { dimension := none, index := none, metadata := [] } := rfl

/-- C8: saving a store whose index is present and whose dimension
agrees with the index dimension (as in every state the code reaches),
onto a disk whose `dimension.txt` is absent or agrees, succeeds; and
loading the resulting snapshot yields the very same store — identical
metadata records, identical vectors value-for-value, same dimension. -/
theorem save_load_round_trip (cfgDim : Option Nat) (s : Store) (disk : Disk)
    (ix : FaissIndex) (hix : s.index = some ix) (hdim : s.dimension = some ix.d)
    (hdf : disk.dimensionFile = none ∨ disk.dimensionFile = some ix.d) :
    (save true s disk).2 = none ∧ load_store cfgDim (save true s disk).1 = s := by
  refine ⟨rfl, ?_⟩
  rcases s with ⟨dim, sidx, md⟩
  simp only at hix hdim
  subst hix hdim
  rcases hdf with hdf | hdf <;> simp [save, load_store, hdf]

theorem save_load_round_trip_witness :
    exStoreC2.index = some { d := 1, vectors := [[0]] } ∧
      exStoreC2.dimension = some 1 ∧
      emptyDisk.dimensionFile = none ∧
      (save true exStoreC2 emptyDisk).2 = none ∧
      load_store none (save true exStoreC2 emptyDisk).1 = exStoreC2 := by
  have h := save_load_round_trip none exStoreC2 emptyDisk
    { d := 1, vectors := [[0]] } rfl rfl (Or.inl rfl)
  exact ⟨rfl, rfl, rfl, h.1, h.2⟩

/-- C9: against a store holding zero records (no index, or an index
with zero vectors), `get_similar_embeddings` and each of
`get_related_ddl`, `get_related_documentation` and
`get_similar_question_sql` return the empty list for every embedding,
every bound and every question, and no error is raised. -/
theorem empty_store_queries_empty (E : String → List ℤ) (s : Store) (emb : List ℤ)
    (n : Nat) (q : String) (h : s.ntotalOrZero = 0) :
    get_similar_embeddings s emb n = [] ∧
      get_related_ddl E s q = [] ∧
      get_related_documentation E s q = [] ∧
      get_similar_question_sql E s q = [] := by
  have hg : ∀ (e : List ℤ) (m : Nat), get_similar_embeddings s e m = [] := by
    intro e m
    rcases hix : s.index with _ | ix
    · simp [get_similar_embeddings, hix]
    · have h0 : ix.ntotal = 0 := by
        simpa only [Store.ntotalOrZero, hix] using h
      simp [get_similar_embeddings, hix, h0]
  exact ⟨hg _ _, by simp [get_related_ddl, hg], by simp [get_related_documentation, hg],
    by simp [get_similar_question_sql, hg]⟩

theorem empty_store_queries_empty_witness :
    (load_store none emptyDisk).ntotalOrZero = 0 ∧
      get_similar_embeddings (load_store none emptyDisk) [(1 : ℤ)] 5 = [] ∧
      get_related_ddl (fun _ => [(1 : ℤ)]) (load_store none emptyDisk) "q" = [] ∧
      get_related_documentation (fun _ => [(1 : ℤ)]) (load_store none emptyDisk) "q" = [] ∧
      get_similar_question_sql (fun _ => [(1 : ℤ)]) (load_store none emptyDisk) "q" = [] := by
  have h := empty_store_queries_empty (fun _ => [(1 : ℤ)]) (load_store none emptyDisk)
    [(1 : ℤ)] 5 "q" rfl
  exact ⟨rfl, h.1, h.2.1, h.2.2.1, h.2.2.2⟩

/-! ### Lemmas about the modelled search -/

theorem distancesFrom_length (q : List ℤ) (i : Nat) (vs : List (List ℤ)) :
    (distancesFrom q i vs).length = vs.length := by
  induction vs generalizing i with
  | nil => rfl
  | cons v vs ih => simp [distancesFrom, ih]

theorem distancesFrom_map_fst (q : List ℤ) (i : Nat) (vs : List (List ℤ)) :
    (distancesFrom q i vs).map Prod.fst = List.range' i vs.length := by
  induction vs generalizing i with
  | nil => rfl
  | cons v vs ih => simp [distancesFrom, List.range'_succ, ih]

theorem mem_distancesFrom (q : List ℤ) (i : Nat) (vs : List (List ℤ)) (p : Nat) (dd : ℤ)
    (h : (p, dd) ∈ distancesFrom q i vs) :
    ∃ j, ∃ hj : j < vs.length, p = i + j ∧ dd = sqDist q (vs.get ⟨j, hj⟩) := by
  induction vs generalizing i with
  | nil => cases h
  | cons v vs ih =>
    rcases List.mem_cons.mp h with h1 | h1
    · refine ⟨0, by simp, ?_, ?_⟩
      · simpa using congrArg Prod.fst h1
      · simpa using congrArg Prod.snd h1
    · obtain ⟨j, hj, hpj, hdd⟩ := ih (i + 1) h1
      refine ⟨j + 1, by simpa using hj, by omega, by simpa using hdd⟩

theorem search_length (ix : FaissIndex) (q : List ℤ) (k : Nat) :
    (ix.search q k).length = min k ix.ntotal := by
  unfold FaissIndex.search
  rw [List.length_take, List.length_insertionSort, distancesFrom_length]
  rfl

theorem search_nodup_fst (ix : FaissIndex) (q : List ℤ) (k : Nat) :
    ((ix.search q k).map Prod.fst).Nodup := by
  have hperm : List.Perm
      ((List.insertionSort rankLE (distancesFrom q 0 ix.vectors)).map Prod.fst)
      ((distancesFrom q 0 ix.vectors).map Prod.fst) :=
    (List.perm_insertionSort rankLE _).map _
  have hnd : ((distancesFrom q 0 ix.vectors).map Prod.fst).Nodup := by
    rw [distancesFrom_map_fst]
    exact List.nodup_range' 0 ix.vectors.length
  have hnd2 : ((List.insertionSort rankLE (distancesFrom q 0 ix.vectors)).map Prod.fst).Nodup :=
    hperm.nodup_iff.mpr hnd
  exact List.Nodup.sublist ((List.take_sublist k _).map Prod.fst) hnd2

theorem search_pairwise (ix : FaissIndex) (q : List ℤ) (k : Nat) :
    List.Pairwise (fun a b : Nat × ℤ => a.2 < b.2 ∨ (a.2 = b.2 ∧ a.1 < b.1))
      (ix.search q k) := by
  have hs : List.Pairwise rankLE (List.insertionSort rankLE (distancesFrom q 0 ix.vectors)) :=
    List.sorted_insertionSort rankLE (distancesFrom q 0 ix.vectors)
  have hp : List.Pairwise rankLE (ix.search q k) :=
    hs.sublist (List.take_sublist k _)
  have hne : List.Pairwise (fun a b : Nat × ℤ => a.1 ≠ b.1) (ix.search q k) :=
    List.pairwise_map.mp (List.Nodup.sublist ((List.take_sublist k _).map Prod.fst)
      ((((List.perm_insertionSort rankLE _).map Prod.fst).nodup_iff).mpr (by
        rw [distancesFrom_map_fst]
        exact List.nodup_range' 0 ix.vectors.length)))
  refine (hp.and hne).imp ?_
  rintro a b ⟨hr | ⟨he, hle⟩, hne1⟩
  · exact Or.inl hr
  · exact Or.inr ⟨he, lt_of_le_of_ne hle hne1⟩

theorem mem_search (ix : FaissIndex) (q : List ℤ) (k : Nat) (p : Nat) (dd : ℤ)
    (h : (p, dd) ∈ ix.search q k) :
    ∃ hp : p < ix.ntotal, dd = sqDist q (ix.vectors.get ⟨p, hp⟩) := by
  have h1 : (p, dd) ∈ List.insertionSort rankLE (distancesFrom q 0 ix.vectors) :=
    List.mem_of_mem_take h
  have h2 : (p, dd) ∈ distancesFrom q 0 ix.vectors :=
    (List.perm_insertionSort rankLE _).mem_iff.mp h1
  obtain ⟨j, hj, hpj, hdd⟩ := mem_distancesFrom q 0 ix.vectors p dd h2
  have hpj0 : p = j := by omega
  subst hpj0
  exact ⟨hj, hdd⟩

/-- C6: on an index holding `m` vectors, a search with a query of the
index dimension and any `k` returns exactly `min k m` pairs, ordered by
strictly ascending squared Euclidean distance with equal distances
ordered by strictly ascending insertion position (so the ranking is
deterministic), and each returned pair carries the squared distance
between the query and the stored vector at its position. -/
theorem search_min_k_sorted_deterministic (ix : FaissIndex) (q : List ℤ) (k : Nat)
    (hq : q.length = ix.d) :
    (ix.search q k).length = min k ix.ntotal ∧
      List.Pairwise (fun a b : Nat × ℤ => a.2 < b.2 ∨ (a.2 = b.2 ∧ a.1 < b.1))
        (ix.search q k) ∧
      ∀ p dd, (p, dd) ∈ ix.search q k →
        ∃ hp : p < ix.ntotal, dd = sqDist q (ix.vectors.get ⟨p, hp⟩) :=
  ⟨search_length ix q k, search_pairwise ix q k,
    fun p dd h => mem_search ix q k p dd h⟩

/-- The concrete three-vector index used in witnesses. -/
def exIx : FaissIndex :=
  { d := 1, vectors := [[0], [1], [2]] }

theorem search_min_k_sorted_deterministic_witness :
    ([(5 : ℤ)] : List ℤ).length = exIx.d ∧
      ((exIx.search [(5 : ℤ)] 2).length = min 2 exIx.ntotal ∧
        List.Pairwise (fun a b : Nat × ℤ => a.2 < b.2 ∨ (a.2 = b.2 ∧ a.1 < b.1))
          (exIx.search [(5 : ℤ)] 2) ∧
        ∀ p dd, (p, dd) ∈ exIx.search [(5 : ℤ)] 2 →
          ∃ hp : p < exIx.ntotal, dd = sqDist [(5 : ℤ)] (exIx.vectors.get ⟨p, hp⟩)) :=
  ⟨rfl, search_min_k_sorted_deterministic exIx [(5 : ℤ)] 2 rfl⟩

/-! ### Lemmas about the metadata lookup -/

theorem mem_lookup_metadata (md : List MetaRec) (ps : List Nat) (r : MetaRec)
    (h : r ∈ lookup_metadata md ps) :
    ∃ p, ∃ hp : p < md.length, r = md.get ⟨p, hp⟩ := by
  induction ps with
  | nil => cases h
  | cons p ps ih =>
    unfold lookup_metadata at h
    by_cases hp : p < md.length
    · rw [dif_pos hp] at h
      rcases List.mem_cons.mp h with h1 | h1
      · exact ⟨p, hp, h1⟩
      · exact ih h1
    · rw [dif_neg hp] at h
      exact ih h

theorem lookup_metadata_cons_pos (md : List MetaRec) (p : Nat) (ps : List Nat)
    (hp : p < md.length) :
    lookup_metadata md (p :: ps) = md.get ⟨p, hp⟩ :: lookup_metadata md ps := by
  conv_lhs => unfold lookup_metadata
  rw [dif_pos hp]

theorem lookup_metadata_cons_neg (md : List MetaRec) (p : Nat) (ps : List Nat)
    (hp : ¬p < md.length) :
    lookup_metadata md (p :: ps) = lookup_metadata md ps := by
  conv_lhs => unfold lookup_metadata
  rw [dif_neg hp]

theorem lookup_metadata_filter (md : List MetaRec) (ps : List Nat) :
    lookup_metadata md ps =
      lookup_metadata md (ps.filter fun p => decide (p < md.length)) := by
  induction ps with
  | nil => rfl
  | cons p ps ih =>
    by_cases hp : p < md.length
    · rw [List.filter_cons_of_pos (by simpa using hp),
        lookup_metadata_cons_pos md p ps hp,
        lookup_metadata_cons_pos md p _ hp, ih]
    · rw [List.filter_cons_of_neg (by simpa using hp),
        lookup_metadata_cons_neg md p ps hp, ih]

theorem lookup_metadata_length_le (md : List MetaRec) (ps : List Nat) :
    (lookup_metadata md ps).length ≤ ps.length := by
  induction ps with
  | nil => exact Nat.le_refl 0
  | cons p ps ih =>
    unfold lookup_metadata
    by_cases hp : p < md.length
    · rw [dif_pos hp]
      simpa using Nat.succ_le_succ ih
    · rw [dif_neg hp]
      exact ih.trans (Nat.le_succ _)

theorem mem_get_similar_embeddings (s : Store) (emb : List ℤ) (n : Nat) (r : MetaRec)
    (h : r ∈ get_similar_embeddings s emb n) :
    ∃ p, ∃ hp : p < s.metadata.length, r = s.metadata.get ⟨p, hp⟩ := by
  rcases hix : s.index with _ | ix
  · simp [get_similar_embeddings, hix] at h
  · by_cases h0 : ix.ntotal = 0
    · simp [get_similar_embeddings, hix, h0] at h
    · simp only [get_similar_embeddings, hix, h0, if_neg] at h
      exact mem_lookup_metadata _ _ _ h

theorem get_similar_embeddings_length_le (s : Store) (emb : List ℤ) (n : Nat) :
    (get_similar_embeddings s emb n).length ≤ n := by
  rcases hix : s.index with _ | ix
  · simp [get_similar_embeddings, hix]
  · by_cases h0 : ix.ntotal = 0
    · simp [get_similar_embeddings, hix, h0]
    · have h1 := lookup_metadata_length_le s.metadata
        ((ix.search emb (min n ix.ntotal)).map Prod.fst)
      have h2 : ((ix.search emb (min n ix.ntotal)).map Prod.fst).length ≤ n := by
        rw [List.length_map, search_length]
        omega
      simp only [get_similar_embeddings, hix, h0, if_neg]
      exact h1.trans h2

/-- The three-vector, two-record store used to exhibit the bounds
guard of the metadata lookup. -/
def exStoreC10 : Store :=
  { dimension := some 1,
    index := some exIx,
    metadata := [MetaRec.ddl "a" "A", MetaRec.ddl "b" "B"] }

/-- C10: every record returned by `get_similar_embeddings` is the
ledger entry at a position strictly below the ledger length; matched
positions at or beyond the ledger length are silently dropped (the
lookup agrees with the lookup over only the in-range positions), so the
positional access never goes out of range.  Concretely, on a store
whose index holds three vectors but whose ledger has two records, the
search matches positions `[2, 1, 0]` and the out-of-range position `2`
is dropped, returning the two in-range records. -/
theorem metadata_lookup_in_bounds :
    (∀ (s : Store) (emb : List ℤ) (n : Nat) (r : MetaRec),
        r ∈ get_similar_embeddings s emb n →
        ∃ p, ∃ hp : p < s.metadata.length, r = s.metadata.get ⟨p, hp⟩) ∧
      (∀ (md : List MetaRec) (ps : List Nat),
        lookup_metadata md ps =
          lookup_metadata md (ps.filter fun p => decide (p < md.length))) ∧
      ((exIx.search [(5 : ℤ)] 3).map Prod.fst = [2, 1, 0] ∧
        exStoreC10.metadata.length = 2 ∧
        get_similar_embeddings exStoreC10 [(5 : ℤ)] 5
          = [MetaRec.ddl "b" "B", MetaRec.ddl "a" "A"]) :=
  ⟨fun s emb n r h => mem_get_similar_embeddings s emb n r h,
   fun md ps => lookup_metadata_filter md ps,
   by decide, by decide, by decide⟩

theorem metadata_lookup_in_bounds_witness :
    MetaRec.ddl "b" "B" ∈ get_similar_embeddings exStoreC10 [(5 : ℤ)] 5 ∧
      ∃ p, ∃ hp : p < exStoreC10.metadata.length,
        MetaRec.ddl "b" "B" = exStoreC10.metadata.get ⟨p, hp⟩ :=
  ⟨by decide,
   metadata_lookup_in_bounds.1 exStoreC10 [(5 : ℤ)] 5 (MetaRec.ddl "b" "B") (by decide)⟩

/-! ### Lemmas and examples for the kind-filtered getters -/

theorem kinds_partition (rs : List MetaRec) :
    (rs.filterMap fun r =>
        match r with
        | MetaRec.ddl _ c => some c
        | _ => none).length +
      (rs.filterMap fun r =>
        match r with
        | MetaRec.documentation _ c => some c
        | _ => none).length +
      (rs.filterMap fun r =>
        match r with
        | MetaRec.questionSql _ qq ss => some (qq, ss)
        | _ => none).length
      = rs.length := by
  induction rs with
  | nil => rfl
  | cons r rs ih =>
    cases r <;> simp [List.filterMap_cons] <;> omega

/-- A store holding ten documentation records close to the zero query
and one DDL record far from it; the top-10 pull returns only the
documentation records. -/
def exStoreC7 : Store :=
  { dimension := some 1,
    index := some
      { d := 1,
        vectors := [[1], [2], [3], [4], [5], [6], [7], [8], [9], [10], [100]] },
    metadata :=
      [MetaRec.documentation "d1" "m1", MetaRec.documentation "d2" "m2",
       MetaRec.documentation "d3" "m3", MetaRec.documentation "d4" "m4",
       MetaRec.documentation "d5" "m5", MetaRec.documentation "d6" "m6",
       MetaRec.documentation "d7" "m7", MetaRec.documentation "d8" "m8",
       MetaRec.documentation "d9" "m9", MetaRec.documentation "d10" "m10",
       MetaRec.ddl "x1" "CREATE TABLE t"] }

/-- C7: each getter draws from the single shared top-10 pull — the
result lengths of the three kind filters always sum to the length of
that one pull, and each is at most 10; every returned DDL payload comes
from a `ddl` record stored in the ledger (and likewise for the other
kinds, whose filters have the same shape); and on a store holding ten
near documentation records and one far DDL record, `get_related_ddl`
returns nothing although a DDL record exists in the store. -/
theorem kind_filtered_top10 :
    (∀ (E : String → List ℤ) (s : Store) (q : String),
        (get_related_ddl E s q).length ≤ 10 ∧
          (get_related_documentation E s q).length ≤ 10 ∧
          (get_similar_question_sql E s q).length ≤ 10) ∧
      (∀ (E : String → List ℤ) (s : Store) (q : String),
        (get_related_ddl E s q).length + (get_related_documentation E s q).length +
            (get_similar_question_sql E s q).length
          = (get_similar_embeddings s (E q) 10).length) ∧
      (∀ (E : String → List ℤ) (s : Store) (q : String) (x : String),
        x ∈ get_related_ddl E s q → ∃ id, MetaRec.ddl id x ∈ s.metadata) ∧
      (get_related_ddl (fun _ => [(0 : ℤ)]) exStoreC7 "q" = [] ∧
        MetaRec.ddl "x1" "CREATE TABLE t" ∈ exStoreC7.metadata) := by
  refine ⟨?_, ?_, ?_, by decide, by decide⟩
  · intro E s q
    have hb := get_similar_embeddings_length_le s (E q) 10
    exact ⟨(List.length_filterMap_le _ _).trans hb,
      (List.length_filterMap_le _ _).trans hb,
      (List.length_filterMap_le _ _).trans hb⟩
  · intro E s q
    exact kinds_partition (get_similar_embeddings s (E q) 10)
  · intro E s q x hx
    obtain ⟨r, hr, hfx⟩ := List.mem_filterMap.mp hx
    obtain ⟨p, hp, hrp⟩ := mem_get_similar_embeddings s (E q) 10 r hr
    cases r with
    | ddl id c =>
        refine ⟨id, ?_⟩
        have hc : c = x := by simpa using hfx
        subst hc
        rw [hrp]
        exact List.get_mem _ _ _
    | documentation id c => simp at hfx
    | questionSql id qq ss => simp at hfx

theorem kind_filtered_top10_witness :
    "CREATE TABLE t" ∈ get_related_ddl (fun _ => [(0 : ℤ)]) exStoreC2 "q" ∧
      ∃ id, MetaRec.ddl id "CREATE TABLE t" ∈ exStoreC2.metadata :=
  ⟨by decide,
   kind_filtered_top10.2.2.1 (fun _ => [(0 : ℤ)]) exStoreC2 "q" "CREATE TABLE t" (by decide)⟩

end Vanna
